import Mathlib

namespace Trrain

/-- OHLCV candle, from `market_data_manager.Candle`. -/
structure Candle where
  timestamp : Nat
  «open» : ℚ
  high : ℚ
  low : ℚ
  close : ℚ
  volume : ℚ
deriving DecidableEq, Repr

/-- State of `MarketDataManager` relevant to the cache claims:
`latest_candle` and `candles_cache` (a timestamp-keyed map, modelled as a
list of candles with pairwise-distinct timestamps). -/
structure MDState where
  latest_candle : Option Candle
  candles_cache : List Candle
deriving DecidableEq, Repr

/-- The empty cache state (before any candle arrives). -/
def MDState.empty : MDState := ⟨none, []⟩

/-- `self.candles_cache[candle.timestamp] = candle`: dict upsert by key. -/
def insertCandle (c : Candle) (cache : List Candle) : List Candle :=
  if cache.any (fun d => d.timestamp = c.timestamp) then
    cache.map (fun d => if d.timestamp = c.timestamp then c else d)
  else
    c :: cache

/-- `min(self.candles_cache.keys())` on a nonempty cache. -/
def minTimestamp (cache : List Candle) : Option Nat :=
  (cache.map Candle.timestamp).min?

/-- `del self.candles_cache[oldest_timestamp]`: removes the candles carrying
the minimum timestamp (exactly one when timestamps are distinct). -/
def evictOldest (cache : List Candle) : List Candle :=
  match minTimestamp cache with
  | none => cache
  | some m => cache.filter (fun d => d.timestamp ≠ m)

/-- `MarketDataManager.update_latest_candle`. -/
def update_latest_candle (s : MDState) (c : Candle) : MDState :=
  let cache := insertCandle c s.candles_cache
  { latest_candle := some c
    candles_cache := if 200 < cache.length then evictOldest cache else cache }

/-- Descending-timestamp comparison used by `get_recent_candles`
(Python `sorted(keys, reverse=True)`). -/
def byDescTs (a b : Candle) : Prop := b.timestamp ≤ a.timestamp

instance : DecidableRel byDescTs := fun a b => Nat.decLe b.timestamp a.timestamp

instance : IsTotal Candle byDescTs := ⟨fun a b => (Nat.le_total a.timestamp b.timestamp).symm⟩

instance : IsTrans Candle byDescTs := ⟨fun _ _ _ hab hbc => Nat.le_trans hbc hab⟩

/-- `MarketDataManager.get_recent_candles`: sort cached timestamps in
descending order and take the first `lookback` candles. -/
def get_recent_candles (s : MDState) (lookback : Nat) : List Candle :=
  (s.candles_cache.insertionSort byDescTs).take lookback

/-- Outcome of one exchange API call: a returned value, or a raised
exception (Python `Exception` propagating to the caller). -/
inductive Res (α : Type) where
  | ok (a : α)
  | exn
deriving DecidableEq, Repr

/-- Local `Position` record kept in `OrderExecutor.positions`
(`order_execution.Position`). -/
structure OPosition where
  symbol : String
  side : String
  size : ℚ
  entry_price : ℚ
  stop_loss_price : ℚ
  take_profit_price : ℚ
  leverage : Nat
deriving DecidableEq, Repr

/-- Order type accepted by `open_position` (`'limit'` or `'market'`). -/
inductive OrdType where
  | limit
  | market
deriving DecidableEq, Repr

/-- Exchange-side effects emitted by the order-execution engine. -/
inductive Action where
  | placeOrder (symbol side tradeSide : String) (size : ℚ) (type : OrdType)
  | cancelOrder (symbol orderId : String)
  | placeTpsl (symbol planType : String) (triggerPrice : ℚ) (holdSide : String) (size : ℚ)
  | closePosition (symbol : String)
  | placeMarketClose (symbol side : String) (size : ℚ)
deriving DecidableEq, Repr

/-- Environment of exchange responses consumed by one `open_position` call.
Each field is the outcome of the corresponding API interaction, in program
order. -/
structure OpenEnv where
  /-- `self.api.get_position(symbol)` precondition check: does a position
  already exist at the exchange? -/
  posExists0 : Res Bool
  /-- `self.api.place_order(**order_params)`: `ok (some id)` for code
  `'00000'` with order id, `ok none` for a rejected order. -/
  placeOrder : Res (Option String)
  /-- Result of `wait_for_order_fill` (it catches its own exceptions and
  returns a boolean). -/
  fill : Bool
  /-- `self.api.cancel_order(symbol, order_id)` after a fill timeout. -/
  cancelAfterNoFill : Res Unit
  /-- The 5 `get_position` polls of the position-confirmation loop
  (`ok true` = position reported). -/
  confirmPolls : List (Res Bool)
  /-- The up-to-3 `place_tpsl_order` responses for the stop-loss
  (`ok true` = code `'00000'`). -/
  slResps : List (Res Bool)
  /-- The up-to-3 `place_tpsl_order` responses for the take-profit. -/
  tpResps : List (Res Bool)
  /-- `self.api.close_position(symbol)` in the TP/SL-failure rollback. -/
  closeRes : Res Unit
deriving Repr

/-- A bounded retry/poll loop over successive call outcomes: stops at the
first success or the first raised exception, returns `ok false` when all
attempts are used up.  Shared shape of the position-confirmation loop and
the two `place_tpsl_order` retry loops in `open_position`. -/
def pollLoop : List (Res Bool) → Res Bool
  | [] => .ok false
  | .exn :: _ => .exn
  | .ok true :: _ => .ok true
  | .ok false :: rest => pollLoop rest

/-- The `try:` body of `OrderExecutor.open_position`.  Returns
`.error acts` when an exception escapes the body after emitting `acts`,
otherwise `.ok (result, actions, positions')`. -/
def open_position_body (env : OpenEnv) (symbol side : String) (size : ℚ)
    (leverage : Nat) (stop_loss_price take_profit_price current_price : ℚ)
    (order_type : OrdType) (price : Option ℚ)
    (positions : List (String × OPosition)) :
    Except (List Action) (Bool × List Action × List (String × OPosition)) :=
  match env.posExists0 with
  | .exn => .error []
  | .ok true => .ok (false, [], positions)
  | .ok false =>
    -- set_leverage never raises (its body catches and returns a bool)
    let api_side := if side = "long" then "buy" else "sell"
    let hold_side := side
    let a0 := [Action.placeOrder symbol api_side "open" size order_type]
    match env.placeOrder with
    | .exn => .error a0
    | .ok none => .ok (false, a0, positions)
    | .ok (some order_id) =>
      -- limit orders wait for the fill; on timeout, cancel and abort
      match order_type, env.fill with
      | .limit, false =>
        let a1 := a0 ++ [Action.cancelOrder symbol order_id]
        match env.cancelAfterNoFill with
        | .exn => .error a1
        | .ok _ => .ok (false, a1, positions)
      | _, _ =>
        -- position-materialization confirmation, up to 5 polls
        match pollLoop (env.confirmPolls.take 5) with
        | .exn => .error a0
        | .ok false => .ok (false, a0, positions)
        | .ok true =>
          -- stop-loss retry loop, up to 3 attempts
          let a2 := a0 ++ [Action.placeTpsl symbol "loss_plan" stop_loss_price hold_side size]
          match pollLoop (env.slResps.take 3) with
          | .exn => .error a2
          | .ok sl_set =>
            -- take-profit retry loop, up to 3 attempts (runs regardless)
            let a3 := a2 ++ [Action.placeTpsl symbol "profit_plan" take_profit_price hold_side size]
            match pollLoop (env.tpResps.take 3) with
            | .exn => .error a3
            | .ok tp_set =>
              if sl_set ∧ tp_set then
                let pos : OPosition :=
                  { symbol := symbol, side := side, size := size
                    entry_price := price.getD current_price
                    stop_loss_price := stop_loss_price
                    take_profit_price := take_profit_price
                    leverage := leverage }
                .ok (true, a3, (symbol, pos) :: positions)
              else
                let a4 := a3 ++ [Action.closePosition symbol]
                match env.closeRes with
                | .exn => .error a4
                | .ok _ => .ok (false, a4, positions)

/-- `OrderExecutor.open_position`: the body wrapped in the
`except Exception` handler, which attempts `self.api.close_position(symbol)`
(swallowing its own errors) and returns `False`. -/
def open_position (env : OpenEnv) (symbol side : String) (size : ℚ)
    (leverage : Nat) (stop_loss_price take_profit_price current_price : ℚ)
    (order_type : OrdType) (price : Option ℚ)
    (positions : List (String × OPosition)) :
    Bool × List Action × List (String × OPosition) :=
  match open_position_body env symbol side size leverage stop_loss_price
      take_profit_price current_price order_type price positions with
  | .ok r => r
  | .error acts => (false, acts ++ [Action.closePosition symbol], positions)

/-- One order of the exchange's pending-order list (`entrustedList` entry)
as consumed by `check_pending_orders`. -/
structure ApiOrder where
  orderId : String
  symbol : String
  side : String
  size : ℚ
  /-- `cTime`, creation time in milliseconds. -/
  cTime : ℚ
  tradeSide : String
  orderType : String
deriving DecidableEq, Repr

/-- A locally tracked pending order (`OrderExecutor.pending_orders` value). -/
structure TrackedOrder where
  symbol : String
  side : String
  size : ℚ
  /-- creation time in seconds. -/
  timestamp : ℚ
  is_close : Bool
  order_type : String
deriving DecidableEq, Repr

/-- The aging sweep of one `check_pending_orders` pass: walks the tracked
orders, drops entries no longer pending at the exchange, converts close
orders older than 20s (cancel, then market close only when the cancel
succeeded), cancels entry orders older than 30s (marking the local position
closed when the cancel succeeded), and keeps the rest.  Returns the
surviving tracked orders, the emitted exchange actions, and the updated
local positions map. -/
def reconcileAged (pending : List ApiOrder) (now : ℚ) (cancelOk : String → Bool) :
    List (String × TrackedOrder) → List (String × OPosition) →
    List (String × TrackedOrder) × List Action × List (String × OPosition)
  | [], poss => ([], [], poss)
  | (oid, info) :: rest, poss =>
    if pending.all (fun o => o.orderId ≠ oid) then
      -- no longer pending at the exchange: treated as filled, dropped
      reconcileAged pending now cancelOk rest poss
    else if info.is_close ∧ 20 < now - info.timestamp then
      let acts := Action.cancelOrder info.symbol oid ::
        (if cancelOk oid then
          [Action.placeOrder info.symbol info.side "close" info.size OrdType.market]
        else [])
      let r := reconcileAged pending now cancelOk rest poss
      (r.1, acts ++ r.2.1, r.2.2)
    else if info.is_close = false ∧ 30 < now - info.timestamp then
      let poss' := if cancelOk oid then poss.filter (fun p => p.1 ≠ info.symbol) else poss
      let r := reconcileAged pending now cancelOk rest poss'
      (r.1, Action.cancelOrder info.symbol oid :: r.2.1, r.2.2)
    else
      let r := reconcileAged pending now cancelOk rest poss
      ((oid, info) :: r.1, r.2.1, r.2.2)

/-- The adoption step of one `check_pending_orders` pass: exchange-pending
orders not currently tracked are added to local tracking, with `cTime`
converted from ms to s and `is_close` derived from `tradeSide`. -/
def adoptNew (tracked : List (String × TrackedOrder)) (pending : List ApiOrder) :
    List (String × TrackedOrder) :=
  tracked ++ (pending.filter (fun o => tracked.all (fun t => t.1 ≠ o.orderId))).map
    (fun o => (o.orderId,
      { symbol := o.symbol, side := o.side, size := o.size
        timestamp := o.cTime / 1000
        is_close := o.tradeSide = "close"
        order_type := o.orderType }))

/-- One full reconciliation pass of `OrderExecutor.check_pending_orders`
after a successful pending-order fetch: the aging sweep followed by the
adoption step. -/
def check_pending_orders_pass (pending : List ApiOrder) (now : ℚ)
    (cancelOk : String → Bool) (tracked : List (String × TrackedOrder))
    (positions : List (String × OPosition)) :
    List (String × TrackedOrder) × List Action × List (String × OPosition) :=
  let r := reconcileAged pending now cancelOk tracked positions
  (adoptNew r.1 pending, r.2.1, r.2.2)

/-- Environment for `cancel_all_symbol_orders`:  outcome of fetching the
exchange's pending orders (`none` = fetch failed, i.e. non-`'00000'` code
or an exception inside `BitgetAPI.cancel_all_pending_orders`), and the
per-order cancellation outcomes. -/
structure CancelEnv where
  fetched : Option (List String)
  cancelOk : String → Bool

/-- `BitgetAPI.cancel_all_pending_orders`: returns one success flag per
cancelled order, and the empty list when the pending-order fetch fails. -/
def cancel_all_pending_orders (env : CancelEnv) : List Bool :=
  match env.fetched with
  | none => []
  | some ids => ids.map env.cancelOk

/-- `OrderExecutor.cancel_all_symbol_orders`: succeeds when `all` results
report code `'00000'`; on success, purges the symbol's entries from local
pending-order tracking. -/
def cancel_all_symbol_orders (env : CancelEnv) (symbol : String)
    (pending_orders : List (String × TrackedOrder)) :
    Bool × List (String × TrackedOrder) :=
  let success := (cancel_all_pending_orders env).all (fun b => b)
  if success then
    (true, pending_orders.filter (fun p => p.2.symbol ≠ symbol))
  else
    (false, pending_orders)

/-- Immutable strategy parameters (`TradingConfig`), with the source's
default values. -/
structure TradingConfig where
  leverage : Nat := 30
  stop_loss_pct : ℚ := 3/10
  take_profit_pct : ℚ := 3/2
  volume_threshold : ℚ := 20
  stoch_rsi_high : ℚ := 90
  stoch_rsi_low : ℚ := 10
  position_size_pct : ℚ := 95
deriving DecidableEq, Repr

/-- The indicator dictionary consumed by the entry/exit predicates; a
`none` field models a missing dictionary key (Python `KeyError` on direct
indexing, default on `.get`). -/
structure Indicators where
  ema7 : Option ℚ := none
  ema25 : Option ℚ := none
  ema200 : Option ℚ := none
  price_change : Option ℚ := none
  stoch_k : Option ℚ := none
  stoch_d : Option ℚ := none
  last_close : Option ℚ := none
  last_volume : Option ℚ := none
  long_ratio : Option ℚ := none
  short_ratio : Option ℚ := none
deriving DecidableEq, Repr

/-- Modelled from the spec: the long/short position-ratio readings returned
by `calculate_position_ratio_indicators`, which is not under `src/` (only
its callers are); the spec (§9) treats this ratio-gating signal as
optional/external, so the readings are environment-supplied, with `none`
modelling a missing dictionary key. -/
structure PositionRatios where
  long_ratio : Option ℚ := none
  short_ratio : Option ℚ := none
deriving DecidableEq, Repr

/-- Mutable `TradingStrategy` state touched by the claims. -/
structure StratState where
  in_position : Bool := false
  entry_position_ratio : ℚ := 0
  ratio_drop_threshold : ℚ := 1/5
  ratio_drop_value : ℚ := 0
  ratio_drop_direction : Option String := none
deriving DecidableEq, Repr

/-- `TradingStrategy.check_ratio_recovery` (return value only; the state
reset it performs on recovery does not affect the booleans the claims are
about, and is elided). Python's `not self.ratio_drop_value` is true exactly
when the float is `0.0`; `not self.ratio_drop_direction` when it is `None`. -/
def check_ratio_recovery (st : StratState) (ind : Indicators) : Bool :=
  if st.ratio_drop_value = 0 ∨ st.ratio_drop_direction = none then true
  else
    let current_ratio :=
      (if st.ratio_drop_direction = some "long" then ind.long_ratio else ind.short_ratio).getD 0
    decide (st.ratio_drop_value + 1/10 < current_ratio)

/-- `TradingStrategy.should_open_long`: the ratio-recovery gate, then the
five entry conditions; a missing indicator key raises `KeyError`, caught to
`False`. -/
def should_open_long (cfg : TradingConfig) (st : StratState) (ind : Indicators) : Bool :=
  if st.ratio_drop_direction = some "long" ∧ check_ratio_recovery st ind = false then
    false
  else
    match ind.last_volume, ind.stoch_k, ind.last_close, ind.ema200, ind.price_change with
    | some v, some k, some c, some e, some pc =>
      decide (cfg.volume_threshold < v) && decide (k < cfg.stoch_rsi_low) &&
        decide (e < c) && decide (0 < pc) && !st.in_position
    | _, _, _, _, _ => false

/-- The `models.Position` fields the strategy's close path reads. -/
structure MPosition where
  symbol : String
  side : String
  size : ℚ
  entry_price : ℚ
  break_even_price : ℚ
  leverage : Nat
deriving DecidableEq, Repr

/-- The PnL%% computation of `should_close_position`: break-even-relative
numerator over the entry price, per side. -/
def pnl_percentage (pos : MPosition) (current_price : ℚ) : ℚ :=
  if pos.side = "long" then
    (current_price - pos.break_even_price) / pos.entry_price * 100
  else
    (pos.break_even_price - current_price) / pos.entry_price * 100

/-- `TradingStrategy.should_close_position`: ratio-drop check first, then
stop-loss at PnL%% ≤ −0.3, then side-dependent take-profit at PnL%% ≥ 0.45
on an opposing candle.  A missing `last_close`/`price_change` key raises,
caught to `(False, "")`. -/
def should_close_position (st : StratState) (ratios : PositionRatios)
    (pos : MPosition) (ind : Indicators) : Bool × String :=
  match ind.last_close, ind.price_change with
  | some current_price, some price_change =>
    if pos.side = "long" ∧ 0 < st.entry_position_ratio ∧
        ratios.long_ratio.getD 0 < st.entry_position_ratio - st.ratio_drop_threshold then
      (true, "ratio_drop")
    else if pos.side = "short" ∧ 0 < st.entry_position_ratio ∧
        ratios.short_ratio.getD 0 < st.entry_position_ratio - st.ratio_drop_threshold then
      (true, "ratio_drop")
    else
      let pnl := pnl_percentage pos current_price
      if pnl ≤ -(3/10) then (true, "stop_loss")
      else if pos.side = "long" then
        if price_change < 0 ∧ 9/20 ≤ pnl then (true, "take_profit") else (false, "")
      else
        if 0 < price_change ∧ 9/20 ≤ pnl then (true, "take_profit") else (false, "")
  | _, _ => (false, "")

/-- Strategy-layer close-path effects. -/
inductive CAction where
  | cancelAllSymbolOrders (symbol : String)
  | executeMarketClose (symbol : String)
  | executeLimitClose (symbol : String) (price : ℚ)
deriving DecidableEq, Repr

/-- Environment for one `TradingStrategy.close_position` call. -/
structure CloseEnv where
  ratios : PositionRatios
  market_close_ok : Bool
  limit_close_ok : Bool
  latest_price : ℚ
deriving DecidableEq, Repr

/-- Modelled from the spec: `OrderExecutor.execute_market_close` is an
exchange-call wrapper that is not under `src/` (only its callers are); per
spec §4.2 it submits a market close for the position and reports success as
a boolean, supplied by the environment. -/
def execute_market_close (env : CloseEnv) (_pos : MPosition) : Bool :=
  env.market_close_ok

/-- Modelled from the spec: `OrderExecutor.execute_limit_close` is an
exchange-call wrapper that is not under `src/` (only its callers are); per
spec §4.2 it submits a limit close at the given price and reports success
as a boolean, supplied by the environment. -/
def execute_limit_close (env : CloseEnv) (_pos : MPosition) (_price : ℚ) : Bool :=
  env.limit_close_ok

/-- The close path of `TradingStrategy.close_position` after the
ratio-drop bookkeeping: cancel residual orders, then market close for
`stop_loss`/`ratio_drop`, otherwise limit close with market-close
fallback. -/
def close_position_main (env : CloseEnv) (st : StratState) (pos : MPosition)
    (reason : String) : Bool × List CAction × StratState :=
  let a0 := [CAction.cancelAllSymbolOrders "BTCUSDT"]
  if reason = "stop_loss" ∨ reason = "ratio_drop" then
    let acts := a0 ++ [CAction.executeMarketClose pos.symbol]
    if execute_market_close env pos then (true, acts, { st with in_position := false })
    else (false, acts, st)
  else
    let acts := a0 ++ [CAction.executeLimitClose pos.symbol env.latest_price]
    if execute_limit_close env pos env.latest_price then
      (true, acts, { st with in_position := false })
    else
      let acts2 := acts ++ [CAction.executeMarketClose pos.symbol]
      if execute_market_close env pos then (true, acts2, { st with in_position := false })
      else (false, acts2, st)

/-- `TradingStrategy.close_position`: for `ratio_drop` it first records the
drop ratio by direct dictionary indexing (a missing key raises, caught to
`False`), then runs the close path. -/
def close_position (env : CloseEnv) (st : StratState) (pos : MPosition)
    (reason : String) : Bool × List CAction × StratState :=
  if reason = "ratio_drop" then
    match (if pos.side = "long" then env.ratios.long_ratio else env.ratios.short_ratio) with
    | none => (false, [], st)
    | some r =>
      close_position_main env
        { st with ratio_drop_value := r, ratio_drop_direction := some pos.side } pos reason
  else
    close_position_main env st pos reason

/-- Does the ratio-drop branch of `should_close_position` fire?  (The
side's current ratio, defaulting to 0 when absent, lies more than
`ratio_drop_threshold` below the recorded entry ratio.) -/
def ratioDropFires (st : StratState) (ratios : PositionRatios) (pos : MPosition) : Prop :=
  (pos.side = "long" ∧ 0 < st.entry_position_ratio ∧
    ratios.long_ratio.getD 0 < st.entry_position_ratio - st.ratio_drop_threshold) ∨
  (pos.side = "short" ∧ 0 < st.entry_position_ratio ∧
    ratios.short_ratio.getD 0 < st.entry_position_ratio - st.ratio_drop_threshold)

instance (st : StratState) (ratios : PositionRatios) (pos : MPosition) :
    Decidable (ratioDropFires st ratios pos) := by
  unfold ratioDropFires; infer_instance

/- Concrete instances used by counterexamples and witnesses. -/

/-- The spec's example indicator snapshot for the long-entry predicate. -/
def indLongExample : Indicators :=
  { last_volume := some 25, stoch_k := some 5, last_close := some 50100
    ema200 := some 50000, price_change := some 5 }

/-- A long position whose break-even equals its entry at 100. -/
def posLong100 : MPosition :=
  { symbol := "BTCUSDT", side := "long", size := 1, entry_price := 100
    break_even_price := 100, leverage := 30 }

/-- Candle with timestamp 2 (other fields zero). -/
def candleT2 : Candle := ⟨2, 0, 0, 0, 0, 0⟩

/-- Candle with timestamp 1 (other fields zero). -/
def candleT1 : Candle := ⟨1, 0, 0, 0, 0, 0⟩

/-- A tracked close order created at t = 100 s. -/
def closeOrderA : TrackedOrder :=
  { symbol := "BTCUSDT", side := "sell", size := 1, timestamp := 100
    is_close := true, order_type := "limit" }

/-- A tracked entry order created at t = 81 s. -/
def entryOrderB : TrackedOrder :=
  { symbol := "BTCUSDT", side := "buy", size := 2, timestamp := 81
    is_close := false, order_type := "limit" }

/-- The exchange-side pending order matching `closeOrderA`. -/
def apiOrderA : ApiOrder :=
  { orderId := "A", symbol := "BTCUSDT", side := "sell", size := 1
    cTime := 100000, tradeSide := "close", orderType := "limit" }

/-- An environment whose very first API call (the position precondition
check) raises, before any order is placed. -/
def envExn : OpenEnv :=
  { posExists0 := .exn, placeOrder := .ok none, fill := false
    cancelAfterNoFill := .ok (), confirmPolls := [], slResps := []
    tpResps := [], closeRes := .ok () }

/-- An environment where the entry fills and the position materializes, the
stop-loss is accepted, but all three take-profit attempts are rejected. -/
def envTpFail : OpenEnv :=
  { posExists0 := .ok false, placeOrder := .ok (some "ord1"), fill := true
    cancelAfterNoFill := .ok (), confirmPolls := [.ok true]
    slResps := [.ok true], tpResps := [.ok false, .ok false, .ok false]
    closeRes := .ok () }

/-- A 200-entry cache with timestamps 0..199. -/
def cache200 : List Candle := (List.range 200).map (fun i => ⟨i, 1, 1, 1, 1, 1⟩)

/-- A fresh candle with timestamp 300. -/
def candleT300 : Candle := ⟨300, 1, 1, 1, 1, 1⟩

end Trrain

namespace Trrain

/-! ## C9: long-entry predicate -/

/-- C9 (counterexample): with the ratio-recovery gate engaged
(`ratio_drop_direction = 'long'`, nonzero `ratio_drop_value`, no
`long_ratio` key to witness recovery), `should_open_long` returns false on
the spec's example snapshot even though all five stated conditions hold, so
the stated "if and only if" fails. -/
theorem should_open_long_gate_blocks :
    should_open_long {} { ratio_drop_direction := some "long", ratio_drop_value := 5 }
      indLongExample = false ∧
    indLongExample.last_volume = some 25 ∧ (20 : ℚ) < 25 ∧
    indLongExample.stoch_k = some 5 ∧ (5 : ℚ) < 10 ∧
    indLongExample.last_close = some 50100 ∧ indLongExample.ema200 = some 50000 ∧
    (50000 : ℚ) < 50100 ∧
    indLongExample.price_change = some 5 ∧ (0 : ℚ) < 5 ∧
    (StratState.in_position { ratio_drop_direction := some "long", ratio_drop_value := 5 }) = false := by
  refine ⟨?_, rfl, by decide, rfl, by decide, rfl, rfl, by decide, rfl, by decide, rfl⟩
  norm_num [should_open_long, check_ratio_recovery, indLongExample]
  try decide

/-- C9 (amended): provided the long ratio-recovery gate does not block,
`should_open_long` under the default config is true iff the five indicator
keys are present with `last_volume > 20`, `stoch_k < 10`,
`last_close > ema200`, `price_change > 0`, and no open position; it is true
on the spec's example snapshot, false when `price_change` is negative, and
false when a required key is missing. -/
theorem should_open_long_spec (st : StratState) (ind : Indicators)
    (hgate : st.ratio_drop_direction = some "long" → check_ratio_recovery st ind = true) :
    (should_open_long {} st ind = true ↔
      ∃ v k c e pc, ind.last_volume = some v ∧ ind.stoch_k = some k ∧
        ind.last_close = some c ∧ ind.ema200 = some e ∧ ind.price_change = some pc ∧
        20 < v ∧ k < 10 ∧ e < c ∧ 0 < pc ∧ st.in_position = false) ∧
    should_open_long {} {} indLongExample = true ∧
    should_open_long {} {} { indLongExample with price_change := some (-5) } = false ∧
    should_open_long {} {} { indLongExample with last_volume := none } = false := by
  refine ⟨?_, by norm_num [should_open_long, check_ratio_recovery, indLongExample],
    by norm_num [should_open_long, check_ratio_recovery, indLongExample],
    by norm_num [should_open_long, check_ratio_recovery, indLongExample]⟩
  unfold should_open_long
  have hng : ¬(st.ratio_drop_direction = some "long" ∧ check_ratio_recovery st ind = false) := by
    rintro ⟨h1, h2⟩
    rw [hgate h1] at h2
    exact Bool.noConfusion h2
  rw [if_neg hng]
  cases hv : ind.last_volume <;> cases hk : ind.stoch_k <;> cases hc : ind.last_close <;>
    cases he : ind.ema200 <;> cases hp : ind.price_change <;>
    simp [Bool.and_eq_true, decide_eq_true_eq, Bool.not_eq_true', and_assoc]

/-- C9 witness: the amended theorem applied at the default state and the
example snapshot, where the gate trivially passes. -/
theorem should_open_long_spec_witness :
    ((StratState.ratio_drop_direction {} = some "long" →
        check_ratio_recovery {} indLongExample = true) ∧
      should_open_long {} {} indLongExample = true) :=
  ⟨by intro h; exact absurd h (by simp), (should_open_long_spec {} indLongExample
    (by intro h; exact absurd h (by simp))).2.1⟩

/-! ## C6: close predicate -/

/-- C6 (counterexample): when the ratio-drop check fires, it preempts the
stop-loss branch: at the concrete state below the PnL%% is −10 ≤ −0.3 yet
`should_close_position` returns `(true, "ratio_drop")`, not
`(true, "stop_loss")`. -/
theorem should_close_position_ratio_preempts_stop_loss :
    should_close_position { entry_position_ratio := 50 } { long_ratio := some 10 }
      posLong100 { last_close := some 90, price_change := some 1 } = (true, "ratio_drop") ∧
    pnl_percentage posLong100 90 ≤ -(3/10) ∧
    ((true, "ratio_drop") : Bool × String) ≠ (true, "stop_loss") := by
  refine ⟨?_, by norm_num [pnl_percentage, posLong100], by decide⟩
  norm_num [should_close_position, posLong100]

/-- C6 (amended): provided the ratio-drop check does not fire,
`should_close_position` returns `(true, "stop_loss")` whenever
PnL%% ≤ −0.3 regardless of candle direction — PnL%% being
`(current_close − break_even)/entry·100` for longs and
`(break_even − current_close)/entry·100` for shorts — and returns
`(true, "take_profit")` only when PnL%% ≥ 0.45 and the most recent
candle's direction opposes the position side. -/
theorem should_close_position_spec (st : StratState) (ratios : PositionRatios)
    (pos : MPosition) (ind : Indicators) (cur pc : ℚ)
    (hc : ind.last_close = some cur) (hp : ind.price_change = some pc)
    (hside : pos.side = "long" ∨ pos.side = "short")
    (hnr : ¬ ratioDropFires st ratios pos) :
    (pnl_percentage pos cur ≤ -(3/10) →
      should_close_position st ratios pos ind = (true, "stop_loss")) ∧
    (should_close_position st ratios pos ind = (true, "take_profit") →
      9/20 ≤ pnl_percentage pos cur ∧
      (pos.side = "long" → pc < 0) ∧ (pos.side = "short" → 0 < pc)) := by
  have h1 : ¬(pos.side = "long" ∧ 0 < st.entry_position_ratio ∧
      ratios.long_ratio.getD 0 < st.entry_position_ratio - st.ratio_drop_threshold) :=
    fun h => hnr (Or.inl h)
  have h2 : ¬(pos.side = "short" ∧ 0 < st.entry_position_ratio ∧
      ratios.short_ratio.getD 0 < st.entry_position_ratio - st.ratio_drop_threshold) :=
    fun h => hnr (Or.inr h)
  have hgoal : should_close_position st ratios pos ind =
      (if pnl_percentage pos cur ≤ -(3/10) then (true, "stop_loss")
       else if pos.side = "long" then
         if pc < 0 ∧ 9/20 ≤ pnl_percentage pos cur then (true, "take_profit") else (false, "")
       else
         if 0 < pc ∧ 9/20 ≤ pnl_percentage pos cur then (true, "take_profit") else (false, "")) := by
    simp only [should_close_position, hc, hp]
    rw [if_neg h1, if_neg h2]
  rw [hgoal]
  constructor
  · intro hpnl
    rw [if_pos hpnl]
  · intro h
    by_cases hpnl : pnl_percentage pos cur ≤ -(3/10)
    · rw [if_pos hpnl] at h
      simp at h
    · rw [if_neg hpnl] at h
      rcases hside with hs | hs
      · rw [if_pos hs] at h
        by_cases htp : pc < 0 ∧ 9/20 ≤ pnl_percentage pos cur
        · refine ⟨htp.2, fun _ => htp.1, fun hshort => ?_⟩
          rw [hs] at hshort
          exact absurd hshort (by decide)
        · rw [if_neg htp] at h
          simp at h
      · have hns : ¬ pos.side = "long" := by rw [hs]; decide
        rw [if_neg hns] at h
        by_cases htp : 0 < pc ∧ 9/20 ≤ pnl_percentage pos cur
        · refine ⟨htp.2, fun hlong => ?_, fun _ => htp.1⟩
          rw [hs] at hlong
          exact absurd hlong (by decide)
        · rw [if_neg htp] at h
          simp at h

/-- C6 witness: the amended theorem applied at a long position with
break-even 100 and close 90 (PnL%% = −10), no ratio state. -/
theorem should_close_position_spec_witness :
    (posLong100.side = "long" ∧ ¬ ratioDropFires {} {} posLong100 ∧
      pnl_percentage posLong100 90 ≤ -(3/10)) ∧
    should_close_position {} {} posLong100
      { last_close := some 90, price_change := some 1 } = (true, "stop_loss") :=
  ⟨⟨rfl, by norm_num [ratioDropFires, posLong100],
      by norm_num [pnl_percentage, posLong100]⟩,
    (should_close_position_spec {} {} posLong100
        { last_close := some 90, price_change := some 1 } 90 1 rfl rfl
        (Or.inl rfl) (by norm_num [ratioDropFires, posLong100])).1
      (by norm_num [pnl_percentage, posLong100])⟩

/-! ## C7: limit close falls back to market close -/

/-- C7: for a take-profit close, `close_position` attempts the limit close
and, when it does not succeed, executes a market close before giving up;
the call resolves to the market close's outcome. -/
theorem close_position_take_profit_fallback (env : CloseEnv) (st : StratState)
    (pos : MPosition) (hlim : execute_limit_close env pos env.latest_price = false) :
    CAction.executeLimitClose pos.symbol env.latest_price ∈
      (close_position env st pos "take_profit").2.1 ∧
    CAction.executeMarketClose pos.symbol ∈ (close_position env st pos "take_profit").2.1 ∧
    (close_position env st pos "take_profit").1 = execute_market_close env pos := by
  unfold close_position close_position_main
  rw [if_neg (by decide), if_neg (by decide), hlim]
  unfold execute_market_close
  cases env.market_close_ok <;> simp

/-- C7 witness: the fallback theorem at a concrete environment whose limit
close fails and whose market close succeeds. -/
theorem close_position_take_profit_fallback_witness :
    (execute_limit_close
        { ratios := {}, market_close_ok := true, limit_close_ok := false, latest_price := 100 }
        posLong100 100 = false) ∧
    CAction.executeMarketClose posLong100.symbol ∈
      (close_position
        { ratios := {}, market_close_ok := true, limit_close_ok := false, latest_price := 100 }
        {} posLong100 "take_profit").2.1 :=
  ⟨rfl, (close_position_take_profit_fallback
    { ratios := {}, market_close_ok := true, limit_close_ok := false, latest_price := 100 }
    {} posLong100 rfl).2.1⟩

/-! ## C8: cancel_all_symbol_orders -/

/-- C8 (counterexample): when the pending-order fetch fails, the API layer
returns an empty result list, `all` over it is vacuously true, and
`cancel_all_symbol_orders` returns true and purges the symbol's tracked
entries — contradicting the claim that it does not return true when the
fetch fails. -/
theorem cancel_all_symbol_orders_fetch_failure :
    (({ fetched := none, cancelOk := fun _ => false } : CancelEnv).fetched = none) ∧
    cancel_all_symbol_orders { fetched := none, cancelOk := fun _ => false } "BTCUSDT"
      [("o1", entryOrderB)] = (true, []) := by
  constructor
  · rfl
  · norm_num [cancel_all_symbol_orders, cancel_all_pending_orders, entryOrderB]

/-- C8 (amended): `cancel_all_symbol_orders` returns true iff every
cancellation in the list returned by the API layer succeeded — vacuously
true when the fetch fails, since the API layer then returns an empty
list — and it purges the symbol's entries from local tracking exactly when
it returns true. -/
theorem cancel_all_symbol_orders_spec (env : CancelEnv) (symbol : String)
    (pending : List (String × TrackedOrder)) :
    ((cancel_all_symbol_orders env symbol pending).1 = true ↔
      (cancel_all_pending_orders env).all (fun b => b) = true) ∧
    (env.fetched = none → (cancel_all_symbol_orders env symbol pending).1 = true) ∧
    ((cancel_all_symbol_orders env symbol pending).1 = true →
      (cancel_all_symbol_orders env symbol pending).2 =
        pending.filter (fun p => p.2.symbol ≠ symbol)) ∧
    ((cancel_all_symbol_orders env symbol pending).1 = false →
      (cancel_all_symbol_orders env symbol pending).2 = pending) := by
  cases hall : (cancel_all_pending_orders env).all (fun b => b)
  · have hr : cancel_all_symbol_orders env symbol pending = (false, pending) := by
      simp [cancel_all_symbol_orders, hall]
    rw [hr]
    refine ⟨by simp [hall], ?_, by simp, fun _ => rfl⟩
    intro hf
    unfold cancel_all_pending_orders at hall
    rw [hf] at hall
    simp at hall
  · have hr : cancel_all_symbol_orders env symbol pending =
        (true, pending.filter (fun p => p.2.symbol ≠ symbol)) := by
      simp [cancel_all_symbol_orders, hall]
    rw [hr]
    exact ⟨by simp [hall], fun _ => rfl, fun _ => rfl, by simp⟩

/-- C8 witness: the amended theorem applied at the fetch-failure
environment. -/
theorem cancel_all_symbol_orders_spec_witness :
    (({ fetched := none, cancelOk := fun _ => false } : CancelEnv).fetched = none) ∧
    (cancel_all_symbol_orders { fetched := none, cancelOk := fun _ => false } "BTCUSDT"
      [("o1", entryOrderB)]).1 = true :=
  ⟨rfl, (cancel_all_symbol_orders_spec { fetched := none, cancelOk := fun _ => false }
    "BTCUSDT" [("o1", entryOrderB)]).2.1 rfl⟩

/-! ## C1: TP/SL failure rollback in open_position -/

/-- C1: when the initial position check is clear, the entry order is
accepted (and, for a limit order, fills), the position materializes within
the 5 confirmation polls, and the stop-loss and take-profit retry loops
complete without exception but at least one of them never gets an accepted
response within its 3 attempts, `open_position` returns false, issues a
`close_position` market close for the symbol, and leaves the local
positions map unchanged (no `Position` record is retained). -/
theorem open_position_tpsl_failure_rollback (env : OpenEnv) (symbol side : String)
    (size : ℚ) (leverage : Nat) (stop_loss_price take_profit_price current_price : ℚ)
    (order_type : OrdType) (price : Option ℚ)
    (positions : List (String × OPosition)) (oid : String) (slb tpb : Bool)
    (h0 : env.posExists0 = .ok false)
    (h1 : env.placeOrder = .ok (some oid))
    (h2 : order_type = .limit → env.fill = true)
    (h3 : pollLoop (env.confirmPolls.take 5) = .ok true)
    (h4 : pollLoop (env.slResps.take 3) = .ok slb)
    (h5 : pollLoop (env.tpResps.take 3) = .ok tpb)
    (h6 : ¬(slb = true ∧ tpb = true)) :
    (open_position env symbol side size leverage stop_loss_price take_profit_price
        current_price order_type price positions).1 = false ∧
    Action.closePosition symbol ∈ (open_position env symbol side size leverage
        stop_loss_price take_profit_price current_price order_type price positions).2.1 ∧
    (open_position env symbol side size leverage stop_loss_price take_profit_price
        current_price order_type price positions).2.2 = positions := by
  have hbody : open_position_body env symbol side size leverage stop_loss_price
      take_profit_price current_price order_type price positions =
      (match env.closeRes with
       | .exn => .error ([Action.placeOrder symbol (if side = "long" then "buy" else "sell")
            "open" size order_type] ++
            [Action.placeTpsl symbol "loss_plan" stop_loss_price side size] ++
            [Action.placeTpsl symbol "profit_plan" take_profit_price side size] ++
            [Action.closePosition symbol])
       | .ok _ => .ok (false,
            [Action.placeOrder symbol (if side = "long" then "buy" else "sell")
              "open" size order_type] ++
            [Action.placeTpsl symbol "loss_plan" stop_loss_price side size] ++
            [Action.placeTpsl symbol "profit_plan" take_profit_price side size] ++
            [Action.closePosition symbol], positions)) := by
    rcases order_type with _ | _
    · simp only [open_position_body, h0, h1, h2 rfl, h3, h4, h5]
      rw [if_neg h6]
    · simp only [open_position_body, h0, h1, h3, h4, h5]
      rw [if_neg h6]
  unfold open_position
  rw [hbody]
  cases hcr : env.closeRes with
  | exn => refine ⟨rfl, ?_, rfl⟩; simp
  | ok u => refine ⟨rfl, ?_, rfl⟩; simp

/-- C1 witness: the rollback theorem at an environment where the limit
entry fills, the position is confirmed, the stop-loss is accepted, and all
three take-profit attempts are rejected. -/
theorem open_position_tpsl_failure_rollback_witness :
    (envTpFail.posExists0 = Res.ok false ∧
      envTpFail.placeOrder = Res.ok (some "ord1") ∧
      pollLoop (envTpFail.confirmPolls.take 5) = Res.ok true ∧
      pollLoop (envTpFail.slResps.take 3) = Res.ok true ∧
      pollLoop (envTpFail.tpResps.take 3) = Res.ok false) ∧
    ((open_position envTpFail "BTCUSDT" "long" 1 30 99 101 100 OrdType.limit
        (some 100) []).1 = false ∧
      Action.closePosition "BTCUSDT" ∈ (open_position envTpFail "BTCUSDT" "long" 1 30
        99 101 100 OrdType.limit (some 100) []).2.1 ∧
      (open_position envTpFail "BTCUSDT" "long" 1 30 99 101 100 OrdType.limit
        (some 100) []).2.2 = []) :=
  ⟨⟨rfl, rfl, rfl, rfl, rfl⟩,
    open_position_tpsl_failure_rollback envTpFail "BTCUSDT" "long" 1 30 99 101 100
      OrdType.limit (some 100) [] "ord1" true false rfl rfl (fun _ => rfl) rfl rfl rfl
      (by simp)⟩

/-! ## C10: the exception handler always attempts a close -/

/-- C10: whenever an exception escapes the body of `open_position` — at any
stage, `acts` being the actions already emitted — the handler attempts
`close_position(symbol)` and the call returns false with the local
positions map unchanged, even when no position was ever opened. -/
theorem open_position_exception_rollback (env : OpenEnv) (symbol side : String)
    (size : ℚ) (leverage : Nat) (stop_loss_price take_profit_price current_price : ℚ)
    (order_type : OrdType) (price : Option ℚ)
    (positions : List (String × OPosition)) (acts : List Action)
    (h : open_position_body env symbol side size leverage stop_loss_price
        take_profit_price current_price order_type price positions = .error acts) :
    (open_position env symbol side size leverage stop_loss_price take_profit_price
        current_price order_type price positions).1 = false ∧
    Action.closePosition symbol ∈ (open_position env symbol side size leverage
        stop_loss_price take_profit_price current_price order_type price positions).2.1 ∧
    (open_position env symbol side size leverage stop_loss_price take_profit_price
        current_price order_type price positions).2.2 = positions := by
  unfold open_position
  rw [h]
  exact ⟨rfl, by simp, rfl⟩

/-- C10 witness: the handler theorem at an environment whose very first API
call raises, before any order was placed or any position opened: the close
is still attempted. -/
theorem open_position_exception_rollback_witness :
    (open_position_body envExn "BTCUSDT" "long" 1 30 99 101 100 OrdType.limit
        (some 100) [] = Except.error [] ∧
      envExn.posExists0 = Res.exn) ∧
    (Action.closePosition "BTCUSDT" ∈ (open_position envExn "BTCUSDT" "long" 1 30 99
        101 100 OrdType.limit (some 100) []).2.1 ∧
      (open_position envExn "BTCUSDT" "long" 1 30 99 101 100 OrdType.limit
        (some 100) []).1 = false) :=
  ⟨⟨rfl, rfl⟩,
    ⟨(open_position_exception_rollback envExn "BTCUSDT" "long" 1 30 99 101 100
        OrdType.limit (some 100) [] [] rfl).2.1,
      (open_position_exception_rollback envExn "BTCUSDT" "long" 1 30 99 101 100
        OrdType.limit (some 100) [] [] rfl).1⟩⟩

/-! ## C5: reconciliation-pass lemmas -/

/-- The aging sweep only keeps (a sublist of) the previously tracked
orders. -/
theorem reconcileAged_sublist (pending : List ApiOrder) (now : ℚ)
    (cancelOk : String → Bool) :
    ∀ (tracked : List (String × TrackedOrder)) (poss : List (String × OPosition)),
      (reconcileAged pending now cancelOk tracked poss).1.Sublist tracked := by
  intro tracked
  induction tracked with
  | nil => intro poss; simp [reconcileAged]
  | cons hd rest ih =>
    intro poss
    obtain ⟨oid, info⟩ := hd
    simp only [reconcileAged]
    by_cases h1 : (pending.all fun o => decide (o.orderId ≠ oid)) = true
    · rw [if_pos h1]
      exact (ih poss).cons _
    · rw [if_neg h1]
      by_cases h2 : info.is_close = true ∧ 20 < now - info.timestamp
      · rw [if_pos h2]
        exact (ih poss).cons _
      · rw [if_neg h2]
        by_cases h3 : info.is_close = false ∧ 30 < now - info.timestamp
        · rw [if_pos h3]
          exact (ih _).cons _
        · rw [if_neg h3]
          exact (ih poss).cons₂ _

/-- Every cancel action emitted by the aging sweep names an order id that
is still pending at the exchange. -/
theorem reconcileAged_cancel_mem_pending (pending : List ApiOrder) (now : ℚ)
    (cancelOk : String → Bool) :
    ∀ (tracked : List (String × TrackedOrder)) (poss : List (String × OPosition))
      (sym o : String),
      Action.cancelOrder sym o ∈ (reconcileAged pending now cancelOk tracked poss).2.1 →
      ∃ a ∈ pending, a.orderId = o := by
  intro tracked
  induction tracked with
  | nil => intro poss sym o h; simp [reconcileAged] at h
  | cons hd rest ih =>
    intro poss sym o h
    obtain ⟨oid, info⟩ := hd
    have hpend : ¬(pending.all fun a => decide (a.orderId ≠ oid)) = true →
        ∃ a ∈ pending, a.orderId = oid := by
      intro h1
      have h1' : ¬ ∀ a ∈ pending, a.orderId ≠ oid := fun hall =>
        h1 (List.all_eq_true.mpr (fun a ha => decide_eq_true (hall a ha)))
      push_neg at h1'
      exact h1'
    simp only [reconcileAged] at h
    by_cases h1 : (pending.all fun o => decide (o.orderId ≠ oid)) = true
    · rw [if_pos h1] at h
      exact ih poss sym o h
    · rw [if_neg h1] at h
      by_cases h2 : info.is_close = true ∧ 20 < now - info.timestamp
      · rw [if_pos h2] at h
        dsimp only at h
        rcases List.mem_append.mp h with hl | hr
        · rcases List.mem_cons.mp hl with he | he2
          · obtain ⟨-, heq⟩ := Action.cancelOrder.inj he
            obtain ⟨a, ha, hae⟩ := hpend h1
            exact ⟨a, ha, heq ▸ hae⟩
          · by_cases hc : cancelOk oid = true
            · rw [if_pos hc] at he2
              simp at he2
            · rw [if_neg hc] at he2
              cases he2
        · exact ih poss sym o hr
      · rw [if_neg h2] at h
        by_cases h3 : info.is_close = false ∧ 30 < now - info.timestamp
        · rw [if_pos h3] at h
          dsimp only at h
          rcases List.mem_cons.mp h with he | hr
          · obtain ⟨-, heq⟩ := Action.cancelOrder.inj he
            obtain ⟨a, ha, hae⟩ := hpend h1
            exact ⟨a, ha, heq ▸ hae⟩
          · exact ih _ sym o hr
        · rw [if_neg h3] at h
          exact ih poss sym o h

/-- A tracked order that is no longer in the exchange's pending list is
dropped by the aging sweep (treated as filled). -/
theorem reconcileAged_absent_dropped (pending : List ApiOrder) (now : ℚ)
    (cancelOk : String → Bool) :
    ∀ (tracked : List (String × TrackedOrder)) (poss : List (String × OPosition))
      (oid : String) (info : TrackedOrder),
      (oid, info) ∈ tracked →
      (tracked.map Prod.fst).Nodup →
      (∀ a ∈ pending, a.orderId ≠ oid) →
      ∀ t ∈ (reconcileAged pending now cancelOk tracked poss).1, t.1 ≠ oid := by
  intro tracked
  induction tracked with
  | nil => intro poss oid info hmem; cases hmem
  | cons hd rest ih =>
    intro poss oid info hmem hnodup habs t ht
    obtain ⟨oid', info'⟩ := hd
    rw [List.map_cons, List.nodup_cons] at hnodup
    rcases List.mem_cons.mp hmem with he | hr
    · have he1 : oid = oid' := congrArg Prod.fst he
      subst he1
      have h1 : (pending.all fun o => decide (o.orderId ≠ oid)) = true :=
        List.all_eq_true.mpr (fun a ha => decide_eq_true (habs a ha))
      simp only [reconcileAged] at ht
      rw [if_pos h1] at ht
      have htr : t ∈ rest := (reconcileAged_sublist pending now cancelOk rest poss).subset ht
      intro hteq
      apply hnodup.1
      rw [← hteq]
      exact List.mem_map.mpr ⟨t, htr, rfl⟩
    · have hne : oid' ≠ oid := by
        intro he
        apply hnodup.1
        rw [he]
        exact List.mem_map.mpr ⟨(oid, info), hr, rfl⟩
      simp only [reconcileAged] at ht
      by_cases h1 : (pending.all fun o => decide (o.orderId ≠ oid')) = true
      · rw [if_pos h1] at ht
        exact ih poss oid info hr hnodup.2 habs t ht
      · rw [if_neg h1] at ht
        by_cases h2 : info'.is_close = true ∧ 20 < now - info'.timestamp
        · rw [if_pos h2] at ht
          exact ih poss oid info hr hnodup.2 habs t ht
        · rw [if_neg h2] at ht
          by_cases h3 : info'.is_close = false ∧ 30 < now - info'.timestamp
          · rw [if_pos h3] at ht
            exact ih _ oid info hr hnodup.2 habs t ht
          · rw [if_neg h3] at ht
            rcases List.mem_cons.mp ht with he | ht'
            · rw [he]
              exact hne
            · exact ih poss oid info hr hnodup.2 habs t ht'

/-- Behavior of the aging sweep on a tracked order still pending at the
exchange: an over-age close order gets a cancel and — when the cancel
succeeds — a market close re-submission; an over-age entry order gets a
cancel; in both cases the order leaves the kept-tracking list. -/
theorem reconcileAged_aged (pending : List ApiOrder) (now : ℚ)
    (cancelOk : String → Bool) :
    ∀ (tracked : List (String × TrackedOrder)) (poss : List (String × OPosition))
      (oid : String) (info : TrackedOrder),
      (oid, info) ∈ tracked →
      (tracked.map Prod.fst).Nodup →
      (∃ a ∈ pending, a.orderId = oid) →
      ((info.is_close = true → 20 < now - info.timestamp →
        Action.cancelOrder info.symbol oid ∈
          (reconcileAged pending now cancelOk tracked poss).2.1 ∧
        (cancelOk oid = true →
          Action.placeOrder info.symbol info.side "close" info.size OrdType.market ∈
            (reconcileAged pending now cancelOk tracked poss).2.1) ∧
        oid ∉ (reconcileAged pending now cancelOk tracked poss).1.map Prod.fst) ∧
      (info.is_close = false → 30 < now - info.timestamp →
        Action.cancelOrder info.symbol oid ∈
          (reconcileAged pending now cancelOk tracked poss).2.1 ∧
        oid ∉ (reconcileAged pending now cancelOk tracked poss).1.map Prod.fst)) := by
  intro tracked
  induction tracked with
  | nil => intro poss oid info hmem; cases hmem
  | cons hd rest ih =>
    intro poss oid info hmem hnodup hex
    obtain ⟨oid', info'⟩ := hd
    rw [List.map_cons, List.nodup_cons] at hnodup
    rcases List.mem_cons.mp hmem with he | hr
    · have he1 : oid = oid' := congrArg Prod.fst he
      have he2 : info = info' := congrArg Prod.snd he
      subst he1
      subst he2
      have h1 : ¬(pending.all fun o => decide (o.orderId ≠ oid)) = true := by
        obtain ⟨a, ha, hae⟩ := hex
        intro hall
        exact absurd hae (of_decide_eq_true (List.all_eq_true.mp hall a ha))
      have hkept : oid ∉ (reconcileAged pending now cancelOk rest
          (if cancelOk oid = true then poss.filter (fun p => p.1 ≠ info.symbol)
            else poss)).1.map Prod.fst ∧
          oid ∉ (reconcileAged pending now cancelOk rest poss).1.map Prod.fst := by
        constructor <;>
        · intro hmm
          obtain ⟨t, ht, hteq⟩ := List.mem_map.mp hmm
          have htr : t ∈ rest := (reconcileAged_sublist pending now cancelOk rest _).subset ht
          apply hnodup.1
          rw [← hteq]
          exact List.mem_map.mpr ⟨t, htr, rfl⟩
      constructor
      · intro hic hage
        simp only [reconcileAged]
        rw [if_neg h1,
          if_pos (show info.is_close = true ∧ 20 < now - info.timestamp from ⟨hic, hage⟩)]
        dsimp only
        refine ⟨List.mem_append_left _ (List.mem_cons_self _ _), fun hc => ?_, hkept.2⟩
        apply List.mem_append_left
        rw [if_pos hc]
        simp
      · intro hic hage
        have h2 : ¬(info.is_close = true ∧ 20 < now - info.timestamp) := by
          rintro ⟨hcl, -⟩
          rw [hic] at hcl
          exact Bool.noConfusion hcl
        simp only [reconcileAged]
        rw [if_neg h1, if_neg h2,
          if_pos (show info.is_close = false ∧ 30 < now - info.timestamp from ⟨hic, hage⟩)]
        dsimp only
        exact ⟨List.mem_cons_self _ _, hkept.1⟩
    · have hne : oid' ≠ oid := by
        intro he
        apply hnodup.1
        rw [he]
        exact List.mem_map.mpr ⟨(oid, info), hr, rfl⟩
      constructor
      · intro hic hage
        simp only [reconcileAged]
        by_cases h1 : (pending.all fun o => decide (o.orderId ≠ oid')) = true
        · rw [if_pos h1]
          exact (ih poss oid info hr hnodup.2 hex).1 hic hage
        · rw [if_neg h1]
          by_cases h2 : info'.is_close = true ∧ 20 < now - info'.timestamp
          · rw [if_pos h2]
            dsimp only
            obtain ⟨hca, hmk, hnk⟩ := (ih poss oid info hr hnodup.2 hex).1 hic hage
            exact ⟨List.mem_append_right _ hca, fun hc => List.mem_append_right _ (hmk hc), hnk⟩
          · rw [if_neg h2]
            by_cases h3 : info'.is_close = false ∧ 30 < now - info'.timestamp
            · rw [if_pos h3]
              dsimp only
              obtain ⟨hca, hmk, hnk⟩ := (ih _ oid info hr hnodup.2 hex).1 hic hage
              exact ⟨List.mem_cons_of_mem _ hca, fun hc => List.mem_cons_of_mem _ (hmk hc), hnk⟩
            · rw [if_neg h3]
              dsimp only
              obtain ⟨hca, hmk, hnk⟩ := (ih poss oid info hr hnodup.2 hex).1 hic hage
              refine ⟨hca, hmk, ?_⟩
              rw [List.map_cons]
              intro hmm
              rcases List.mem_cons.mp hmm with h | h
              · exact hne h.symm
              · exact hnk h
      · intro hic hage
        simp only [reconcileAged]
        by_cases h1 : (pending.all fun o => decide (o.orderId ≠ oid')) = true
        · rw [if_pos h1]
          exact (ih poss oid info hr hnodup.2 hex).2 hic hage
        · rw [if_neg h1]
          by_cases h2 : info'.is_close = true ∧ 20 < now - info'.timestamp
          · rw [if_pos h2]
            dsimp only
            obtain ⟨hca, hnk⟩ := (ih poss oid info hr hnodup.2 hex).2 hic hage
            exact ⟨List.mem_append_right _ hca, hnk⟩
          · rw [if_neg h2]
            by_cases h3 : info'.is_close = false ∧ 30 < now - info'.timestamp
            · rw [if_pos h3]
              dsimp only
              obtain ⟨hca, hnk⟩ := (ih _ oid info hr hnodup.2 hex).2 hic hage
              exact ⟨List.mem_cons_of_mem _ hca, hnk⟩
            · rw [if_neg h3]
              dsimp only
              obtain ⟨hca, hnk⟩ := (ih poss oid info hr hnodup.2 hex).2 hic hage
              refine ⟨hca, ?_⟩
              rw [List.map_cons]
              intro hmm
              rcases List.mem_cons.mp hmm with h | h
              · exact hne h.symm
              · exact hnk h

/-- The adoption step re-adds any exchange-pending order id not currently
tracked. -/
theorem adoptNew_mem_of_pending (tracked : List (String × TrackedOrder))
    (pending : List ApiOrder) (oid : String)
    (hex : ∃ a ∈ pending, a.orderId = oid)
    (hnk : ∀ t ∈ tracked, t.1 ≠ oid) :
    ∃ t ∈ adoptNew tracked pending, t.1 = oid := by
  obtain ⟨a, ha, hae⟩ := hex
  have hfa : a ∈ pending.filter (fun o => tracked.all (fun t => t.1 ≠ o.orderId)) := by
    refine List.mem_filter.mpr ⟨ha, ?_⟩
    apply List.all_eq_true.mpr
    intro t ht
    exact decide_eq_true (hae ▸ hnk t ht)
  exact ⟨_, List.mem_append_right _ (List.mem_map.mpr ⟨a, hfa, rfl⟩), hae⟩

/-! ## C5: one reconciliation pass -/

/-- C5 (amended): on a reconciliation pass over distinct tracked order ids,
a tracked order absent from the fetched exchange list is dropped without
any cancel call for it; a tracked close order still pending and older than
20 s receives a cancel and — exactly as far as the cancel succeeding
allows — a market close re-submission for the same size and side; a
tracked entry order still pending and older than 30 s receives a cancel;
in both aged cases the order id is nonetheless present in tracking at the
end of the pass, because the adoption step re-adopts ids still in the
fetched exchange snapshot. -/
theorem check_pending_orders_pass_spec (pending : List ApiOrder) (now : ℚ)
    (cancelOk : String → Bool) (tracked : List (String × TrackedOrder))
    (positions : List (String × OPosition)) (oid : String) (info : TrackedOrder)
    (hmem : (oid, info) ∈ tracked)
    (hnodup : (tracked.map Prod.fst).Nodup) :
    ((∀ a ∈ pending, a.orderId ≠ oid) →
      (∀ t ∈ (check_pending_orders_pass pending now cancelOk tracked positions).1,
        t.1 ≠ oid) ∧
      (∀ sym, Action.cancelOrder sym oid ∉
        (check_pending_orders_pass pending now cancelOk tracked positions).2.1)) ∧
    ((∃ a ∈ pending, a.orderId = oid) →
      (info.is_close = true → 20 < now - info.timestamp →
        Action.cancelOrder info.symbol oid ∈
          (check_pending_orders_pass pending now cancelOk tracked positions).2.1 ∧
        (cancelOk oid = true →
          Action.placeOrder info.symbol info.side "close" info.size OrdType.market ∈
            (check_pending_orders_pass pending now cancelOk tracked positions).2.1) ∧
        ∃ t ∈ (check_pending_orders_pass pending now cancelOk tracked positions).1,
          t.1 = oid) ∧
      (info.is_close = false → 30 < now - info.timestamp →
        Action.cancelOrder info.symbol oid ∈
          (check_pending_orders_pass pending now cancelOk tracked positions).2.1 ∧
        ∃ t ∈ (check_pending_orders_pass pending now cancelOk tracked positions).1,
          t.1 = oid)) := by
  simp only [check_pending_orders_pass]
  constructor
  · intro habs
    constructor
    · intro t ht
      rcases List.mem_append.mp ht with hl | hr
      · exact reconcileAged_absent_dropped pending now cancelOk tracked positions
          oid info hmem hnodup habs t hl
      · obtain ⟨a, haf, haeq⟩ := List.mem_map.mp hr
        have ha : a ∈ pending := List.mem_of_mem_filter haf
        rw [← haeq]
        exact habs a ha
    · intro sym hc
      obtain ⟨a, ha, hae⟩ :=
        reconcileAged_cancel_mem_pending pending now cancelOk tracked positions sym oid hc
      exact habs a ha hae
  · intro hex
    have hkept := fun hnk => adoptNew_mem_of_pending
      (reconcileAged pending now cancelOk tracked positions).1 pending oid hex hnk
    constructor
    · intro hic hage
      obtain ⟨hca, hmk, hnk⟩ :=
        (reconcileAged_aged pending now cancelOk tracked positions oid info
          hmem hnodup hex).1 hic hage
      refine ⟨hca, hmk, ?_⟩
      exact hkept (fun t ht hteq => hnk (hteq ▸ List.mem_map.mpr ⟨t, ht, rfl⟩))
    · intro hic hage
      obtain ⟨hca, hnk⟩ :=
        (reconcileAged_aged pending now cancelOk tracked positions oid info
          hmem hnodup hex).2 hic hage
      refine ⟨hca, ?_⟩
      exact hkept (fun t ht hteq => hnk (hteq ▸ List.mem_map.mpr ⟨t, ht, rfl⟩))

/-- C5 (counterexample): one concrete pass at `now = 121` with a tracked
close order "A" (created at 100 s, so 21 s old, still in the exchange list,
cancel rejected) and a tracked entry order "B" (created at 81 s, so 40 s
old, absent from the exchange list).  The pass emits only the cancel for
"A": no market close is re-submitted for "A" (its cancel failed), no
exchange cancel is issued for "B" (it is simply dropped), and "A" is still
tracked after the pass (re-adopted from the snapshot) — contradicting the
claim's unconditional cancel + market-resubmit + removal. -/
theorem check_pending_orders_pass_aging :
    check_pending_orders_pass [apiOrderA] 121 (fun _ => false)
        [("A", closeOrderA), ("B", entryOrderB)] [] =
      ([("A", closeOrderA)], [Action.cancelOrder "BTCUSDT" "A"], []) ∧
    closeOrderA.is_close = true ∧ (20 : ℚ) < 121 - closeOrderA.timestamp ∧
    entryOrderB.is_close = false ∧ (30 : ℚ) < 121 - entryOrderB.timestamp ∧
    Action.placeOrder "BTCUSDT" "sell" "close" 1 OrdType.market ∉
      [Action.cancelOrder "BTCUSDT" "A"] ∧
    Action.cancelOrder "BTCUSDT" "B" ∉ [Action.cancelOrder "BTCUSDT" "A"] ∧
    ("A", closeOrderA) ∈ [("A", closeOrderA)] := by
  refine ⟨?_, rfl, by norm_num [closeOrderA], rfl, by norm_num [entryOrderB],
    by decide, by decide, by decide⟩
  norm_num [check_pending_orders_pass, reconcileAged, adoptNew, apiOrderA,
    closeOrderA, entryOrderB, show ("A" : String) ≠ "B" from by decide]

/-- C5 witness: the pass theorem applied at the concrete aged close order
"A" with a succeeding cancel: the cancel and the market re-submission are
both emitted, and "A" remains tracked via re-adoption. -/
theorem check_pending_orders_pass_spec_witness :
    ((("A", closeOrderA) ∈ [("A", closeOrderA), ("B", entryOrderB)] ∧
      ([("A", closeOrderA), ("B", entryOrderB)].map Prod.fst).Nodup ∧
      (∃ a ∈ [apiOrderA], a.orderId = "A") ∧
      closeOrderA.is_close = true ∧ (20 : ℚ) < 121 - closeOrderA.timestamp) ∧
    (Action.cancelOrder closeOrderA.symbol "A" ∈
        (check_pending_orders_pass [apiOrderA] 121 (fun _ => true)
          [("A", closeOrderA), ("B", entryOrderB)] []).2.1 ∧
      Action.placeOrder closeOrderA.symbol closeOrderA.side "close" closeOrderA.size
          OrdType.market ∈
        (check_pending_orders_pass [apiOrderA] 121 (fun _ => true)
          [("A", closeOrderA), ("B", entryOrderB)] []).2.1 ∧
      ∃ t ∈ (check_pending_orders_pass [apiOrderA] 121 (fun _ => true)
          [("A", closeOrderA), ("B", entryOrderB)] []).1, t.1 = "A")) := by
  refine ⟨⟨by decide, by decide, by decide, rfl, by norm_num [closeOrderA]⟩, ?_⟩
  have h := (check_pending_orders_pass_spec [apiOrderA] 121 (fun _ => true)
      [("A", closeOrderA), ("B", entryOrderB)] [] "A" closeOrderA (by decide)
      (by decide)).2 (by decide)
  exact ⟨(h.1 rfl (by norm_num [closeOrderA])).1,
    (h.1 rfl (by norm_num [closeOrderA])).2.1 rfl,
    (h.1 rfl (by norm_num [closeOrderA])).2.2⟩

/-! ## Cache helper lemmas -/

/-- Removing the occurrences of a present element from a duplicate-free
list shortens it by exactly one. -/
theorem length_filter_ne_of_nodup {l : List Nat} {m : Nat} (hnd : l.Nodup)
    (hm : m ∈ l) : (l.filter (fun t => t ≠ m)).length = l.length - 1 := by
  induction l with
  | nil => cases hm
  | cons a l ih =>
    rw [List.nodup_cons] at hnd
    rcases List.mem_cons.mp hm with h | h
    · subst h
      rw [List.filter_cons_of_neg (by simp)]
      rw [List.filter_eq_self.mpr (fun b hb => by
        simp only [ne_eq, decide_eq_true_eq]
        exact fun he => hnd.1 (he ▸ hb))]
      simp
    · rw [List.filter_cons_of_pos (by
        simp only [ne_eq, decide_eq_true_eq]
        exact fun he => hnd.1 (he ▸ h))]
      simp only [List.length_cons]
      rw [ih hnd.2 h]
      have hpos : 0 < l.length := List.length_pos.mpr (List.ne_nil_of_mem h)
      omega

/-- `evictOldest` on a cache with a known minimum timestamp filters that
timestamp out. -/
theorem evictOldest_eq (cache : List Candle) (m : Nat)
    (h : minTimestamp cache = some m) :
    evictOldest cache = cache.filter (fun d => d.timestamp ≠ m) := by
  unfold evictOldest
  rw [h]

/-- A nonempty cache has a minimum timestamp. -/
theorem minTimestamp_exists (cache : List Candle) (hne : cache ≠ []) :
    ∃ m, minTimestamp cache = some m := by
  unfold minTimestamp
  cases hm : (cache.map Candle.timestamp).min? with
  | none =>
    rw [List.min?_eq_none_iff, List.map_eq_nil_iff] at hm
    exact absurd hm hne
  | some m => exact ⟨m, rfl⟩

/-- Upserting a genuinely new timestamp prepends the candle. -/
theorem insertCandle_of_new (c : Candle) (cache : List Candle)
    (hnew : ∀ d ∈ cache, d.timestamp ≠ c.timestamp) :
    insertCandle c cache = c :: cache := by
  unfold insertCandle
  rw [if_neg]
  intro h
  obtain ⟨d, hd, hts⟩ := List.any_eq_true.mp h
  exact hnew d hd (of_decide_eq_true hts)

/-- What `minTimestamp cache = some m` means: `m` is a cached timestamp and
a lower bound of all cached timestamps. -/
theorem minTimestamp_spec (cache : List Candle) (m : Nat)
    (h : minTimestamp cache = some m) :
    (∃ d ∈ cache, d.timestamp = m) ∧ ∀ d ∈ cache, m ≤ d.timestamp := by
  unfold minTimestamp at h
  have h' := (List.min?_eq_some_iff (fun a => Nat.le_refl a) (fun a b => min_choice a b)
    (fun a b c => Nat.le_min)).mp h
  obtain ⟨hmem, hle⟩ := h'
  obtain ⟨d, hd, hdts⟩ := List.mem_map.mp hmem
  exact ⟨⟨d, hd, hdts⟩, fun d hd => hle _ (List.mem_map_of_mem Candle.timestamp hd)⟩

/-- The upserted candle is always present after `insertCandle` (an insert is
never rejected). -/
theorem insertCandle_mem_self (c : Candle) (cache : List Candle) :
    c ∈ insertCandle c cache := by
  unfold insertCandle
  by_cases h : cache.any (fun d => d.timestamp = c.timestamp) = true
  · rw [if_pos h]
    obtain ⟨d, hd, hts⟩ := List.any_eq_true.mp h
    exact List.mem_map.mpr ⟨d, hd, by simp [of_decide_eq_true hts]⟩
  · rw [if_neg h]
    exact List.mem_cons_self c cache

/-- `insertCandle` grows the cache by at most one entry. -/
theorem insertCandle_length_le (c : Candle) (cache : List Candle) :
    (insertCandle c cache).length ≤ cache.length + 1 := by
  unfold insertCandle
  by_cases h : cache.any (fun d => d.timestamp = c.timestamp) = true
  · rw [if_pos h, List.length_map]
    omega
  · rw [if_neg h, List.length_cons]

/-- One `update_latest_candle` call keeps the cache within 200 entries. -/
theorem update_latest_candle_length_le (s : MDState) (c : Candle)
    (h : s.candles_cache.length ≤ 200) :
    (update_latest_candle s c).candles_cache.length ≤ 200 := by
  simp only [update_latest_candle]
  by_cases hov : 200 < (insertCandle c s.candles_cache).length
  · rw [if_pos hov]
    have hne : insertCandle c s.candles_cache ≠ [] := by
      intro hnil
      rw [hnil] at hov
      simp at hov
    have hmin : ∃ m, minTimestamp (insertCandle c s.candles_cache) = some m := by
      unfold minTimestamp
      cases hm : (List.map Candle.timestamp (insertCandle c s.candles_cache)).min? with
      | none =>
        rw [List.min?_eq_none_iff, List.map_eq_nil_iff] at hm
        exact absurd hm hne
      | some m => exact ⟨m, rfl⟩
    obtain ⟨m, hm⟩ := hmin
    rw [evictOldest_eq _ _ hm]
    obtain ⟨⟨d, hd, hdts⟩, _⟩ := minTimestamp_spec _ _ hm
    have hlt : ((insertCandle c s.candles_cache).filter
        (fun d => d.timestamp ≠ m)).length < (insertCandle c s.candles_cache).length := by
      apply List.length_filter_lt_length_iff_exists.mpr
      exact ⟨d, hd, by simp [hdts]⟩
    have hub := insertCandle_length_le c s.candles_cache
    omega
  · rw [if_neg hov]
    omega

/-! ## C2: cache bound and eviction -/

/-- C2: starting from the empty cache, the cache holds at most 200 entries
after every sequence of `update_latest_candle` calls; the upserted candle is
always inserted (never rejected); and when an insert would exceed 200
entries, the surviving entries are exactly those whose timestamp differs
from the minimum cached timestamp — i.e. precisely the minimum-timestamp
entry is evicted, and with distinct timestamps and a full cache the size
returns to exactly 200. -/
theorem update_latest_candle_bounded_eviction :
    (∀ cs : List Candle,
      (cs.foldl update_latest_candle MDState.empty).candles_cache.length ≤ 200) ∧
    (∀ (s : MDState) (c : Candle), c ∈ insertCandle c s.candles_cache) ∧
    (∀ (s : MDState) (c : Candle) (m : Nat),
      200 < (insertCandle c s.candles_cache).length →
      minTimestamp (insertCandle c s.candles_cache) = some m →
      ∀ d ∈ insertCandle c s.candles_cache,
        (d ∈ (update_latest_candle s c).candles_cache ↔ d.timestamp ≠ m)) ∧
    (∀ (s : MDState) (c : Candle),
      (s.candles_cache.map Candle.timestamp).Nodup →
      (∀ d ∈ s.candles_cache, d.timestamp ≠ c.timestamp) →
      s.candles_cache.length = 200 →
      (update_latest_candle s c).candles_cache.length = 200) := by
  refine ⟨?_, fun s c => insertCandle_mem_self c s.candles_cache, ?_, ?_⟩
  · have key : ∀ (cs : List Candle) (s : MDState), s.candles_cache.length ≤ 200 →
        (cs.foldl update_latest_candle s).candles_cache.length ≤ 200 := by
      intro cs
      induction cs with
      | nil => intro s h; exact h
      | cons c rest ih =>
        intro s h
        exact ih _ (update_latest_candle_length_le s c h)
    intro cs
    exact key cs MDState.empty (by simp [MDState.empty])
  · intro s c m hov hm d hd
    simp only [update_latest_candle]
    rw [if_pos hov, evictOldest_eq _ _ hm]
    simp only [List.mem_filter, decide_eq_true_eq]
    constructor
    · rintro ⟨_, hne⟩; exact hne
    · intro hne; exact ⟨hd, hne⟩
  · intro s c hnodup hnew hlen
    have hins : insertCandle c s.candles_cache = c :: s.candles_cache := by
      unfold insertCandle
      rw [if_neg]
      intro h
      obtain ⟨d, hd, hts⟩ := List.any_eq_true.mp h
      exact hnew d hd (of_decide_eq_true hts)
    have hov : 200 < (insertCandle c s.candles_cache).length := by
      rw [hins, List.length_cons, hlen]
      omega
    simp only [update_latest_candle]
    rw [if_pos hov]
    have hne : (insertCandle c s.candles_cache).map Candle.timestamp ≠ [] := by
      rw [hins]
      simp
    obtain ⟨m, hm⟩ : ∃ m, minTimestamp (insertCandle c s.candles_cache) = some m := by
      unfold minTimestamp
      cases hm : ((insertCandle c s.candles_cache).map Candle.timestamp).min? with
      | none => rw [List.min?_eq_none_iff] at hm; exact absurd hm hne
      | some m => exact ⟨m, rfl⟩
    rw [evictOldest_eq _ _ hm]
    obtain ⟨⟨d0, hd0, hd0ts⟩, _⟩ := minTimestamp_spec _ _ hm
    have hnodup' : ((insertCandle c s.candles_cache).map Candle.timestamp).Nodup := by
      rw [hins, List.map_cons]
      exact List.Nodup.cons (fun hmem => by
        obtain ⟨d, hd, hts⟩ := List.mem_map.mp hmem
        exact hnew d hd hts) hnodup
    have hmem_m : m ∈ (insertCandle c s.candles_cache).map Candle.timestamp :=
      List.mem_map.mpr ⟨d0, hd0, hd0ts⟩
    have hts_len : ((insertCandle c s.candles_cache).map Candle.timestamp).length = 201 := by
      rw [List.length_map, hins, List.length_cons, hlen]
    calc ((insertCandle c s.candles_cache).filter (fun d => d.timestamp ≠ m)).length
        = (((insertCandle c s.candles_cache).filter
            (fun d => d.timestamp ≠ m)).map Candle.timestamp).length :=
          (List.length_map _ _).symm
      _ = (((insertCandle c s.candles_cache).map Candle.timestamp).filter
            (fun t => t ≠ m)).length := by
          rw [List.filter_map]
          rfl
      _ = ((insertCandle c s.candles_cache).map Candle.timestamp).length - 1 :=
          length_filter_ne_of_nodup hnodup' hmem_m
      _ = 200 := by rw [hts_len]

set_option maxRecDepth 40000 in
/-- C2 witness: the bounded-eviction theorem applied at a full 200-entry
cache (timestamps 0..199) receiving a fresh candle with timestamp 300: the
minimum timestamp 0 is the one evicted and the size stays 200. -/
theorem update_latest_candle_bounded_eviction_witness :
    (200 < (insertCandle candleT300 cache200).length ∧
      minTimestamp (insertCandle candleT300 cache200) = some 0 ∧
      candleT300 ∈ insertCandle candleT300 cache200 ∧
      (candleT300 ∈ (update_latest_candle ⟨none, cache200⟩ candleT300).candles_cache ↔
        candleT300.timestamp ≠ 0)) ∧
    ((cache200.map Candle.timestamp).Nodup ∧
      (update_latest_candle ⟨none, cache200⟩ candleT300).candles_cache.length = 200) :=
  ⟨⟨by decide, by decide,
      update_latest_candle_bounded_eviction.2.1 ⟨none, cache200⟩ candleT300,
      update_latest_candle_bounded_eviction.2.2.1 ⟨none, cache200⟩ candleT300 0
        (by decide) (by decide) candleT300
        (update_latest_candle_bounded_eviction.2.1 ⟨none, cache200⟩ candleT300)⟩,
    ⟨by decide,
      update_latest_candle_bounded_eviction.2.2.2 ⟨none, cache200⟩ candleT300
        (by decide) (by decide) (by decide)⟩⟩

/-! ## C3: latest_candle invariant -/

/-- C3 (counterexample): inserting a candle whose timestamp (1) is smaller
than the cached maximum (2) still overwrites `latest_candle` with it, so
`latest_candle` is not the maximum-timestamp cached candle. -/
theorem latest_candle_stale_insert :
    (update_latest_candle (update_latest_candle MDState.empty candleT2)
        candleT1).latest_candle = some candleT1 ∧
    candleT2 ∈ (update_latest_candle (update_latest_candle MDState.empty candleT2)
        candleT1).candles_cache ∧
    candleT1.timestamp = 1 ∧ candleT2.timestamp = 2 := by
  decide

/-- C3 (amended): after every `update_latest_candle` call, `latest_candle`
equals the candle just passed in; when that candle's timestamp strictly
exceeds every previously cached timestamp it is also the maximum-timestamp
cached candle. -/
theorem update_latest_candle_latest_spec (s : MDState) (c : Candle)
    (hmax : ∀ d ∈ s.candles_cache, d.timestamp < c.timestamp) :
    (update_latest_candle s c).latest_candle = some c ∧
    c ∈ (update_latest_candle s c).candles_cache ∧
    ∀ d ∈ (update_latest_candle s c).candles_cache, d.timestamp ≤ c.timestamp := by
  have hins : insertCandle c s.candles_cache = c :: s.candles_cache :=
    insertCandle_of_new c s.candles_cache
      (fun d hd => Nat.ne_of_lt (hmax d hd))
  have hsub : ∀ d ∈ insertCandle c s.candles_cache, d.timestamp ≤ c.timestamp := by
    rw [hins]
    intro d hd
    rcases List.mem_cons.mp hd with h | h
    · rw [h]
    · exact Nat.le_of_lt (hmax d h)
  refine ⟨rfl, ?_, ?_⟩
  · simp only [update_latest_candle]
    by_cases hov : 200 < (insertCandle c s.candles_cache).length
    · rw [if_pos hov]
      have hnonempty : s.candles_cache ≠ [] := by
        intro hnil
        rw [hins, hnil] at hov
        simp at hov
      obtain ⟨d1, hd1⟩ := List.exists_mem_of_ne_nil s.candles_cache hnonempty
      obtain ⟨m, hm⟩ := minTimestamp_exists (insertCandle c s.candles_cache)
        (by rw [hins]; simp)
      rw [evictOldest_eq _ _ hm]
      obtain ⟨_, hlb⟩ := minTimestamp_spec _ _ hm
      have hmlt : m < c.timestamp :=
        Nat.lt_of_le_of_lt
          (hlb d1 (by rw [hins]; exact List.mem_cons_of_mem c hd1)) (hmax d1 hd1)
      refine List.mem_filter.mpr ⟨insertCandle_mem_self c s.candles_cache, ?_⟩
      simp only [decide_eq_true_eq]
      omega
    · rw [if_neg hov]
      exact insertCandle_mem_self c s.candles_cache
  · simp only [update_latest_candle]
    by_cases hov : 200 < (insertCandle c s.candles_cache).length
    · rw [if_pos hov]
      obtain ⟨m, hm⟩ := minTimestamp_exists (insertCandle c s.candles_cache)
        (by rw [hins]; simp)
      rw [evictOldest_eq _ _ hm]
      intro d hd
      exact hsub d (List.mem_of_mem_filter hd)
    · rw [if_neg hov]
      exact hsub

/-- C3 witness: the amended theorem applied to a cache holding only the
timestamp-1 candle and an incoming timestamp-2 candle. -/
theorem update_latest_candle_latest_spec_witness :
    ((∀ d ∈ (MDState.mk none [candleT1]).candles_cache,
        d.timestamp < candleT2.timestamp) ∧
      (update_latest_candle ⟨none, [candleT1]⟩ candleT2).latest_candle = some candleT2) :=
  ⟨by decide, (update_latest_candle_latest_spec ⟨none, [candleT1]⟩ candleT2 (by decide)).1⟩

/-! ## C4: get_recent_candles ordering -/

/-- C4 (counterexample): on a cache holding timestamps 1 and 2,
`get_recent_candles` returns the candles in descending timestamp order
(2 before 1), not ascending as claimed. -/
theorem get_recent_candles_descending :
    get_recent_candles ⟨none, [candleT1, candleT2]⟩ 2 = [candleT2, candleT1] ∧
    candleT1.timestamp < candleT2.timestamp := by
  decide

/-- C4 (amended): `get_recent_candles s lookback` returns the `lookback`
most-recent cached candles in descending timestamp order; when fewer than
`lookback` are cached it returns all of them (no padding), and every
returned candle's timestamp is at least that of every non-returned cached
candle. -/
theorem get_recent_candles_spec (s : MDState) (k : Nat) :
    List.Sorted byDescTs (get_recent_candles s k) ∧
    (get_recent_candles s k).length = min k s.candles_cache.length ∧
    (s.candles_cache.length ≤ k → (get_recent_candles s k).Perm s.candles_cache) ∧
    (∀ x ∈ get_recent_candles s k, ∀ y ∈ s.candles_cache,
      y ∉ get_recent_candles s k → y.timestamp ≤ x.timestamp) := by
  have hperm : (s.candles_cache.insertionSort byDescTs).Perm s.candles_cache :=
    List.perm_insertionSort byDescTs _
  have hsort : List.Sorted byDescTs (s.candles_cache.insertionSort byDescTs) :=
    List.sorted_insertionSort byDescTs _
  refine ⟨?_, ?_, ?_, ?_⟩
  · exact List.Pairwise.sublist (List.take_sublist k _) hsort
  · unfold get_recent_candles
    rw [List.length_take, hperm.length_eq]
  · intro hle
    unfold get_recent_candles
    rw [List.take_of_length_le (by rw [hperm.length_eq]; exact hle)]
    exact hperm
  · intro x hx y hy hyn
    have hy' : y ∈ s.candles_cache.insertionSort byDescTs := hperm.mem_iff.mpr hy
    have hsplit := List.take_append_drop k (s.candles_cache.insertionSort byDescTs)
    rcases List.mem_append.mp (by rw [hsplit]; exact hy') with h | h
    · exact absurd h hyn
    · have hpw := List.pairwise_append.mp (by rw [hsplit]; exact hsort)
      exact hpw.2.2 x hx y h

/-- C4 witness: the amended theorem applied at the two-candle cache with
lookback 1: the returned timestamp-2 candle dominates the non-returned
timestamp-1 candle. -/
theorem get_recent_candles_spec_witness :
    (candleT2 ∈ get_recent_candles ⟨none, [candleT1, candleT2]⟩ 1 ∧
      candleT1 ∈ (MDState.mk none [candleT1, candleT2]).candles_cache ∧
      candleT1 ∉ get_recent_candles ⟨none, [candleT1, candleT2]⟩ 1) ∧
    candleT1.timestamp ≤ candleT2.timestamp :=
  ⟨⟨by decide, by decide, by decide⟩,
    (get_recent_candles_spec ⟨none, [candleT1, candleT2]⟩ 1).2.2.2 candleT2
      (by decide) candleT1 (by decide) (by decide)⟩

end Trrain
